import Mathlib

/-!
Verification model of the pjax navigation engine in
`src/_includes/js/dependencies/pjax.js` (the operative ES6 `PJAX` class,
constructed at the bottom of the file as `window.pjax = new PJAX()`).

The DOM is shallowly embedded: a document is a list of element nodes in
document order; an element records the projections of its subtree that the
engine reads or writes (tag, attributes, textContent, and, for container
candidates, the text of the inline script elements inside it, in document
order).  CSS selector matching is an external collaborator and is passed in
as an interpretation `S : String → Element → Bool`; a small concrete
interpreter `simpleMatch` covering tag and class selectors is used for
concrete scenarios.  Fallible DOM operations (member access on a possibly
`undefined`/`null` value) return `Except JsError`.
-/

set_option autoImplicit false

/-- An element node together with the projections of its subtree that the
engine reads or writes: `text` is its `textContent`, `attrs` its attribute
list, and `scripts` the `textContent` of the inline `script` descendants in
document order (used when the element is the container). -/
structure Element where
  tag : String
  attrs : List (String × String)
  text : String
  scripts : List String
deriving DecidableEq

/-- A document, as its element nodes in document order. -/
abbrev Doc := List Element

/-- A thrown JavaScript error (the engine only ever hits TypeErrors). -/
inductive JsError where
  | typeError (msg : String)
deriving DecidableEq

/-- document.querySelectorAll(sel): all matching elements, document order. -/
def qsa (sel : Element → Bool) (d : Doc) : List Element :=
  d.filter sel

/-- document.querySelector(sel): the first matching element, if any. -/
def querySelector (sel : Element → Bool) (d : Doc) : Option Element :=
  (qsa sel d).head?

/-- WebIDL DOMString coercion of a nullable string: `null` becomes the
string "null" (this is what `setAttribute(name, el.getAttribute(a))` stores
when the fetched element lacks the attribute). -/
def jsString : Option String → String
  | some s => s
  | none => "null"

/-- element.getAttribute(name): the attribute's value, or null. -/
def getAttribute (el : Element) (name : String) : Option String :=
  el.attrs.lookup name

/-- Replace or append a (name, value) binding in an attribute list. -/
def setAttrList : List (String × String) → String → String → List (String × String)
  | [], n, v => [(n, v)]
  | (m, w) :: rest, n, v =>
    if m = n then (n, v) :: rest else (m, w) :: setAttrList rest n v

/-- element.setAttribute(name, v). -/
def setAttribute (el : Element) (name v : String) : Element :=
  { el with attrs := setAttrList el.attrs name v }

/-- Assignment element.textContent = v: the subtree is replaced by a single
text node, so any inline scripts under the element disappear as well. -/
def setText (el : Element) (v : String) : Element :=
  { el with text := v, scripts := [] }

/-- Indexing a NodeList: `found[k]`, which is `undefined` out of range. -/
def jsIndex (l : List Element) (k : Nat) : Option Element :=
  l.get? k

/-- Member access `x.textContent` on a possibly-undefined value: throws a
TypeError on `undefined`. -/
def textMemberAccess (x : Option Element) : Except JsError String :=
  match x with
  | none => Except.error (JsError.typeError "Cannot read properties of undefined")
  | some el => Except.ok el.text

/-- Member access `x.getAttribute(name)` on a possibly-undefined value. -/
def attrMemberAccess (x : Option Element) (name : String) : Except JsError (Option String) :=
  match x with
  | none => Except.error (JsError.typeError "Cannot read properties of undefined")
  | some el => Except.ok (getAttribute el name)

/-- One textContent entry of PJAX.request's load handler (pjax.js 269-283):
`elements.forEach((element, key) => { let found = response.querySelectorAll(sel);
if (found.length && found[key]) element.textContent = found[key].textContent })`.
The walk is over the live document `l`; `k` counts the matches already seen,
so it is the forEach index `key` of the current match; `found` is the
(constant) match list in the fetched document.  The truthiness guard
`found.length && found[key]` holds exactly when `k < found.length`. -/
def copyTextAuxE (found : List Element) (sel : Element → Bool) : Doc → Nat → Except JsError Doc
  | [], _ => Except.ok []
  | el :: rest, k =>
    if sel el then
      if found.length != 0 && (jsIndex found k).isSome then
        match textMemberAccess (jsIndex found k) with
        | Except.error e => Except.error e
        | Except.ok t =>
          match copyTextAuxE found sel rest (k + 1) with
          | Except.error e => Except.error e
          | Except.ok d => Except.ok (setText el t :: d)
      else
        match copyTextAuxE found sel rest (k + 1) with
        | Except.error e => Except.error e
        | Except.ok d => Except.ok (el :: d)
    else
      match copyTextAuxE found sel rest k with
      | Except.error e => Except.error e
      | Except.ok d => Except.ok (el :: d)

/-- The throw-free value of `copyTextAuxE` (proved equal below). -/
def copyTextAux (found : List Element) (sel : Element → Bool) : Doc → Nat → Doc
  | [], _ => []
  | el :: rest, k =>
    if sel el then
      (if h : k < found.length then setText el (found.get ⟨k, h⟩).text else el)
        :: copyTextAux found sel rest (k + 1)
    else
      el :: copyTextAux found sel rest k

/-- One attribute entry of PJAX.request's load handler (pjax.js 286-305):
`element.setAttribute(name, found[key].getAttribute(name))`, under the same
`found.length && found[key]` guard; a `null` attribute on the fetched
element is coerced to the DOMString "null" by setAttribute. -/
def copyAttrAuxE (found : List Element) (sel : Element → Bool) (name : String) : Doc → Nat → Except JsError Doc
  | [], _ => Except.ok []
  | el :: rest, k =>
    if sel el then
      if found.length != 0 && (jsIndex found k).isSome then
        match attrMemberAccess (jsIndex found k) name with
        | Except.error e => Except.error e
        | Except.ok v =>
          match copyAttrAuxE found sel name rest (k + 1) with
          | Except.error e => Except.error e
          | Except.ok d => Except.ok (setAttribute el name (jsString v) :: d)
      else
        match copyAttrAuxE found sel name rest (k + 1) with
        | Except.error e => Except.error e
        | Except.ok d => Except.ok (el :: d)
    else
      match copyAttrAuxE found sel name rest k with
      | Except.error e => Except.error e
      | Except.ok d => Except.ok (el :: d)

/-- The throw-free value of `copyAttrAuxE` (proved equal below). -/
def copyAttrAux (found : List Element) (sel : Element → Bool) (name : String) : Doc → Nat → Doc
  | [], _ => []
  | el :: rest, k =>
    if sel el then
      (if h : k < found.length then
          setAttribute el name (jsString (getAttribute (found.get ⟨k, h⟩) name))
        else el)
        :: copyAttrAux found sel name rest (k + 1)
    else
      el :: copyAttrAux found sel name rest k

/-- The ReplaceConfig of the engine: textContent selector strings and
(selector, attribute-name) pairs, as in the source. -/
structure ReplaceConfig where
  textContent : List String
  «attribute» : List (String × String)
deriving DecidableEq

/-- Step 1 of the load handler: the loop over `this.replace.textContent`
(pjax.js 269-283), threading the mutated live document. -/
def replaceTextStepsE (S : String → Element → Bool) (resp : Doc) : List String → Doc → Except JsError Doc
  | [], live => Except.ok live
  | sel :: rest, live =>
    match copyTextAuxE (qsa (S sel) resp) (S sel) live 0 with
    | Except.error e => Except.error e
    | Except.ok live2 => replaceTextStepsE S resp rest live2

/-- Throw-free value of `replaceTextStepsE`. -/
def replaceTextSteps (S : String → Element → Bool) (resp : Doc) : List String → Doc → Doc
  | [], live => live
  | sel :: rest, live =>
    replaceTextSteps S resp rest (copyTextAux (qsa (S sel) resp) (S sel) live 0)

/-- Step 2 of the load handler: the loop over `this.replace.attribute`
(pjax.js 286-305). -/
def replaceAttrStepsE (S : String → Element → Bool) (resp : Doc) : List (String × String) → Doc → Except JsError Doc
  | [], live => Except.ok live
  | p :: rest, live =>
    match copyAttrAuxE (qsa (S p.1) resp) (S p.1) p.2 live 0 with
    | Except.error e => Except.error e
    | Except.ok live2 => replaceAttrStepsE S resp rest live2

/-- Throw-free value of `replaceAttrStepsE`. -/
def replaceAttrSteps (S : String → Element → Bool) (resp : Doc) : List (String × String) → Doc → Doc
  | [], live => live
  | p :: rest, live =>
    replaceAttrSteps S resp rest (copyAttrAux (qsa (S p.1) resp) (S p.1) p.2 live 0)

/-- Steps 1-2 of the load handler: all text entries, then all attribute
entries, each re-querying the (possibly already mutated) live document. -/
def steps12E (S : String → Element → Bool) (cfg : ReplaceConfig) (resp live : Doc) : Except JsError Doc :=
  match replaceTextStepsE S resp cfg.textContent live with
  | Except.error e => Except.error e
  | Except.ok live2 => replaceAttrStepsE S resp cfg.«attribute» live2

/-- Throw-free value of `steps12E`. -/
def steps12 (S : String → Element → Bool) (cfg : ReplaceConfig) (resp live : Doc) : Doc :=
  replaceAttrSteps S resp cfg.«attribute» (replaceTextSteps S resp cfg.textContent live)

/-- currentPage.parentNode.replaceChild(newPage, currentPage): the first
live element matching the container selector is replaced by `newEl`. -/
def replaceFirst (sel : Element → Bool) (newEl : Element) : Doc → Doc
  | [] => []
  | el :: rest => if sel el then newEl :: rest else el :: replaceFirst sel newEl rest

/-- Adoption side of replaceChild: inserting `newPage` into the live
document removes it (with its whole subtree, inline scripts included) from
the fetched document it came from. -/
def eraseFirst (sel : Element → Bool) : Doc → Doc
  | [] => []
  | el :: rest => if sel el then rest else el :: eraseFirst sel rest

/-- querySelectorAll(container + " script") on a document: the descendant
query collects the inline script texts carried by the container-matching
elements, in document order. -/
def containerScripts (csel : Element → Bool) (d : Doc) : List String :=
  (qsa csel d).flatMap Element.scripts

/-- The load handler of PJAX.request (pjax.js 265-333) up to the afterLoad
hook, acting on the live and fetched documents.  In source order: the
textContent loop, the attribute loop, addLinkEvent on the links inside the
fetched container (handler registration only: it throws nothing and changes
no document content, see clickHandler below), then the container swap
`currentPage.parentNode.replaceChild(newPage, currentPage)` - a TypeError
if querySelector found no currentPage (null.parentNode) or no newPage
(replaceChild(null, _)) - and finally the script re-creation loop, whose
NodeList is queried from the fetched document only after the swap has
adopted the container away from it.  Returns the patched live document, the
fetched document after adoption, and the texts of the scripts that were
re-created, inserted and removed (that is, evaluated), in order. -/
def patchDOM (S : String → Element → Bool) (cfg : ReplaceConfig) (container : String) (live resp : Doc) : Except JsError (Doc × Doc × List String) :=
  match steps12E S cfg resp live with
  | Except.error e => Except.error e
  | Except.ok live2 =>
    match querySelector (S container) live2 with
    | none => Except.error (JsError.typeError "Cannot read properties of null (reading parentNode)")
    | some _ =>
      match querySelector (S container) resp with
      | none => Except.error (JsError.typeError "Failed to execute replaceChild on Node: parameter 1 is not of type Node")
      | some newPage =>
        let live3 := replaceFirst (S container) newPage live2
        let resp2 := eraseFirst (S container) resp
        Except.ok (live3, resp2, containerScripts (S container) resp2)

/-- Concrete CSS matching for the selector shapes the scenarios need:
".c" matches elements whose class attribute is c, anything else matches as
a tag name. -/
def simpleMatch (sel : String) (el : Element) : Bool :=
  match sel.data with
  | '.' :: cls => getAttribute el "class" == some (String.mk cls)
  | _ => el.tag == sel

/-- A JavaScript value handed to onload or stored in the queue.  A function
is abstracted to an identity and whether invoking it throws. -/
inductive JsVal where
  | fn (id : Nat) (throws : Bool)
  | num (n : Int)
  | str (s : String)
  | obj
deriving DecidableEq

/-- typeof v === "function". -/
def isFunction : JsVal → Bool
  | JsVal.fn _ _ => true
  | _ => false

/-- The ids of the function entries of a list, in order. -/
def fnIds (l : List JsVal) : List Nat :=
  l.filterMap fun v =>
    match v with
    | JsVal.fn id _ => some id
    | _ => none

/-- The fields of a PJAX instance (pjax.js 145-154), together with the two
handler slots that onload writes: `afterLoadSet` records that
this.afterLoad === this.execQueue, `windowOnloadSet` that
window.onload === this.execQueue. -/
structure PJAXState where
  container : String
  links : String
  replace : ReplaceConfig
  queue : List JsVal
  afterLoadSet : Bool
  windowOnloadSet : Bool
deriving DecidableEq

/-- PJAX.DEFAULT_CONTAINER (pjax.js 162-164). -/
def DEFAULT_CONTAINER : String := ".body"

/-- PJAX.DEFAULT_LINKS (pjax.js 172-174). -/
def DEFAULT_LINKS : String := ".pjax-link"

/-- PJAX.DEFAULT_REPLACE (pjax.js 182-210). -/
def DEFAULT_REPLACE : ReplaceConfig :=
  { textContent := ["title"],
    «attribute» :=
      [("meta[name$=\"title\"]", "content"),
       ("meta[name$=\"description\"]", "content"),
       ("meta[property^=\"og:\"]", "content"),
       ("meta[property^=\"article:\"]", "content"),
       ("link[rel=\"canonical\"]", "href")] }

/-- new PJAX() with the default arguments (pjax.js 145-154): both handler
slots start unset (onload has not run). -/
def PJAX.new : PJAXState :=
  { container := DEFAULT_CONTAINER, links := DEFAULT_LINKS,
    replace := DEFAULT_REPLACE, queue := [],
    afterLoadSet := false, windowOnloadSet := false }

/-- The bootstrap at the bottom of pjax.js (380-383):
window.pjax = new PJAX(); pjax.replace.textContent.push("h1"). -/
def windowPjax : PJAXState :=
  let p := PJAX.new
  { p with replace := { p.replace with textContent := p.replace.textContent ++ ["h1"] } }

/-- PJAX.onload (pjax.js 368-377): push the callback if it is a function,
then (unconditionally) assign window.onload = this.execQueue and
this.afterLoad = this.execQueue. -/
def PJAX.onload (st : PJAXState) (callback : JsVal) : PJAXState :=
  { st with
    queue := if isFunction callback then st.queue ++ [callback] else st.queue,
    afterLoadSet := true,
    windowOnloadSet := true }

/-- PJAX.execQueue (pjax.js 346-358) run on the instance: walk the queue in
order; entries that are not functions are skipped (typeof check); a function
is invoked, and if it throws, the error is caught and logged and the walk
continues.  Returns the ids invoked, in order, and the ids whose invocation
threw (and was logged). -/
def execQueueRun : List JsVal → List Nat × List Nat
  | [] => ([], [])
  | JsVal.fn id thr :: rest =>
    let p := execQueueRun rest
    (id :: p.1, if thr then id :: p.2 else p.2)
  | _ :: rest => execQueueRun rest

/-- The object a call to execQueue is made on. -/
inductive Receiver where
  | pjaxObj
  | windowObj
deriving DecidableEq

/-- Calling execQueue on a receiver.  Called on the instance
(this.execQueue() in setup, this.afterLoad() in the request handler),
this.queue is the queue and the walk runs.  Called through the browser's
load event, the handler is the unbound method stored by
window.onload = this.execQueue, so this is window; window has no queue
binding on this page, and this.queue.forEach throws a TypeError before any
callback is invoked. -/
def execQueueCalledOn : Receiver → PJAXState → Except JsError (List Nat × List Nat)
  | Receiver.pjaxObj, st => Except.ok (execQueueRun st.queue)
  | Receiver.windowObj, _ =>
    Except.error (JsError.typeError "Cannot read properties of undefined (reading forEach)")

/-- The callback invocations an execQueue call produced: a thrown TypeError
aborts the call before any entry runs. -/
def invocationsOf : Except JsError (List Nat × List Nat) → List Nat
  | Except.ok p => p.1
  | Except.error _ => []

/-- The browser fires the window load event: if onload installed the
handler, the unbound method runs with window as receiver. -/
def windowLoadFire (st : PJAXState) : Except JsError (List Nat × List Nat) :=
  if st.windowOnloadSet then execQueueCalledOn Receiver.windowObj st
  else Except.ok ([], [])

/-- An action of the engine against the fetcher or the history stack. -/
inductive HAction where
  | request (url : String)
  | pushState (url : String)
deriving DecidableEq

/-- The back/forward handler installed by PJAX.setup (pjax.js 222-224):
window.onpopstate = () => { this.request(window.location.href) }.  Given the
current window location it requests it; there is no pushState call. -/
def popstateHandler (currentLocation : String) : List HAction :=
  [HAction.request currentLocation]

/-- The click handler attached by PJAX.addLinkEvent (pjax.js 240-246):
e.preventDefault(); this.request(e.target.href);
history.pushState(null, null, e.target.href). -/
def clickHandler (href : String) : List HAction :=
  [HAction.request href, HAction.pushState href]

/-- Effect of a list of engine actions on the history back-stack: pushState
appends an entry, a request does not touch the stack. -/
def applyHistory (hist : List String) : List HAction → List String
  | [] => hist
  | HAction.request _ :: rest => applyHistory hist rest
  | HAction.pushState u :: rest => applyHistory (hist ++ [u]) rest

/-- An operation of the page's startup script: an onload registration or
the (single) call to setup(). -/
inductive StartupOp where
  | register (v : JsVal)
  | callSetup
deriving DecidableEq

/-- Run the startup script: registrations go through PJAX.onload; a setup()
call (pjax.js 218-231) wires the link handlers and onpopstate and runs
this.execQueue() once, immediately, on the instance (history.pushState
exists in the modelled browser).  Returns the final state and the callback
invocations made during the script, in order. -/
def runStartup : PJAXState → List StartupOp → PJAXState × List Nat
  | st, [] => (st, [])
  | st, StartupOp.register v :: ops => runStartup (PJAX.onload st v) ops
  | st, StartupOp.callSetup :: ops =>
    let p := runStartup st ops
    (p.1, (execQueueRun st.queue).1 ++ p.2)

/-- All callback invocations of the first page load: those made while the
startup script runs (setup's immediate execQueue), then those made when the
browser fires the window load event. -/
def firstLoadInvocations (ops : List StartupOp) : List Nat :=
  let p := runStartup windowPjax ops
  p.2 ++ invocationsOf (windowLoadFire p.1)

/-- Step 6 of the load handler (pjax.js 330-332): if typeof this.afterLoad
is a function, call it; it is the instance's execQueue, called on the
instance, so the queue runs once. -/
def afterPatchInvocations (st : PJAXState) : List Nat :=
  if st.afterLoadSet then (execQueueRun st.queue).1 else []

/-- The whole load handler of PJAX.request at the engine level: the DOM
patch pass with this instance's config, then the afterLoad hook. -/
def requestLoadHandler (S : String → Element → Bool) (st : PJAXState) (live resp : Doc) : Except JsError (Doc × Doc × List String × List Nat) :=
  match patchDOM S st.replace st.container live resp with
  | Except.error e => Except.error e
  | Except.ok (l, r, sc) => Except.ok (l, r, sc, afterPatchInvocations st)

/-- The live document of the spec scenario: container div.body with text A. -/
def scenarioLive : Doc := [⟨"div", [("class", "body")], "A", []⟩]

/-- The fetched document of the spec scenario: container div.body with text B
and one inline script setting window.__x to 1. -/
def scenarioResp : Doc := [⟨"div", [("class", "body")], "B", ["window.__x=1"]⟩]

/-- A config whose two textContent selectors both match the one live
element: tag selector "p" and class selector ".x". -/
def overlapCfg : ReplaceConfig := { textContent := ["p", ".x"], «attribute» := [] }

/-- One live element matched by both selectors of `overlapCfg`. -/
def overlapLive : Doc := [⟨"p", [("class", "x")], "old", []⟩]

/-- A fetched document in which selector "p" matches the first element only
and selector ".x" the second only, with different texts. -/
def overlapResp : Doc := [⟨"p", [], "P", []⟩, ⟨"span", [("class", "x")], "X", []⟩]

/-! Helper lemmas. -/

theorem jsIndex_isSome (l : List Element) (k : Nat) :
    (jsIndex l k).isSome = decide (k < l.length) := by
  unfold jsIndex
  rcases Nat.lt_or_ge k l.length with h | h
  · rw [List.get?_eq_get h]
    simp [h]
  · rw [List.get?_eq_none.mpr h]
    simp [Nat.not_lt_of_ge h]

theorem copy_guard_eq (found : List Element) (k : Nat) :
    (found.length != 0 && (jsIndex found k).isSome) = decide (k < found.length) := by
  rw [jsIndex_isSome]
  rcases Nat.lt_or_ge k found.length with h | h
  · have hlen : found.length ≠ 0 := by omega
    simp [h, hlen]
  · simp [Nat.not_lt_of_ge h]

theorem copyTextAuxE_ok (found : List Element) (sel : Element → Bool) :
    ∀ (l : Doc) (k : Nat), copyTextAuxE found sel l k = Except.ok (copyTextAux found sel l k) := by
  intro l
  induction l with
  | nil => intro k; rfl
  | cons el rest ih =>
    intro k
    unfold copyTextAuxE copyTextAux
    by_cases hs : sel el
    · rw [if_pos hs, if_pos hs, copy_guard_eq]
      rcases Nat.lt_or_ge k found.length with h | h
      · rw [if_pos (by simpa using h)]
        have : jsIndex found k = some (found.get ⟨k, h⟩) := List.get?_eq_get h
        rw [this]
        unfold textMemberAccess
        rw [ih (k + 1), dif_pos h]
      · rw [if_neg (by simpa using Nat.not_lt_of_ge h)]
        rw [ih (k + 1), dif_neg (Nat.not_lt_of_ge h)]
    · rw [if_neg hs, if_neg hs, ih k]

theorem copyAttrAuxE_ok (found : List Element) (sel : Element → Bool) (name : String) :
    ∀ (l : Doc) (k : Nat), copyAttrAuxE found sel name l k = Except.ok (copyAttrAux found sel name l k) := by
  intro l
  induction l with
  | nil => intro k; rfl
  | cons el rest ih =>
    intro k
    unfold copyAttrAuxE copyAttrAux
    by_cases hs : sel el
    · rw [if_pos hs, if_pos hs, copy_guard_eq]
      rcases Nat.lt_or_ge k found.length with h | h
      · rw [if_pos (by simpa using h)]
        have : jsIndex found k = some (found.get ⟨k, h⟩) := List.get?_eq_get h
        rw [this]
        unfold attrMemberAccess
        rw [ih (k + 1), dif_pos h]
      · rw [if_neg (by simpa using Nat.not_lt_of_ge h)]
        rw [ih (k + 1), dif_neg (Nat.not_lt_of_ge h)]
    · rw [if_neg hs, if_neg hs, ih k]

theorem replaceTextStepsE_ok (S : String → Element → Bool) (resp : Doc) :
    ∀ (sels : List String) (live : Doc),
      replaceTextStepsE S resp sels live = Except.ok (replaceTextSteps S resp sels live) := by
  intro sels
  induction sels with
  | nil => intro live; rfl
  | cons sel rest ih =>
    intro live
    unfold replaceTextStepsE replaceTextSteps
    rw [copyTextAuxE_ok]
    exact ih _

theorem replaceAttrStepsE_ok (S : String → Element → Bool) (resp : Doc) :
    ∀ (pairs : List (String × String)) (live : Doc),
      replaceAttrStepsE S resp pairs live = Except.ok (replaceAttrSteps S resp pairs live) := by
  intro pairs
  induction pairs with
  | nil => intro live; rfl
  | cons p rest ih =>
    intro live
    unfold replaceAttrStepsE replaceAttrSteps
    rw [copyAttrAuxE_ok]
    exact ih _

theorem steps12E_ok (S : String → Element → Bool) (cfg : ReplaceConfig) (resp live : Doc) :
    steps12E S cfg resp live = Except.ok (steps12 S cfg resp live) := by
  unfold steps12E steps12
  rw [replaceTextStepsE_ok]
  exact replaceAttrStepsE_ok S resp cfg.«attribute» _

theorem copyTextAux_unchanged (found : List Element) (sel : Element → Bool) :
    ∀ (l : Doc) (k i : Nat) (el : Element),
      l.get? i = some el →
      (sel el = false ∨ found.length ≤ k + (l.take i).countP sel) →
      (copyTextAux found sel l k).get? i = some el := by
  intro l
  induction l with
  | nil => intro k i el hget _; simp at hget
  | cons hd rest ih =>
    intro k i el hget hcond
    unfold copyTextAux
    cases i with
    | zero =>
      simp only [List.get?] at hget
      injection hget with hget
      subst hget
      by_cases hs : sel hd
      · rw [if_pos hs]
        rcases hcond with hf | hle
        · rw [hs] at hf; exact absurd hf (by simp)
        · simp only [List.take_zero, List.countP_nil, Nat.add_zero] at hle
          rw [dif_neg (Nat.not_lt_of_ge hle)]
          rfl
      · rw [if_neg hs]
        rfl
    | succ i =>
      simp only [List.get?] at hget
      by_cases hs : sel hd
      · rw [if_pos hs]
        simp only [List.get?]
        apply ih (k + 1) i el hget
        rcases hcond with hf | hle
        · exact Or.inl hf
        · right
          simp only [List.take_succ_cons, List.countP_cons, hs, if_pos] at hle
          omega
      · rw [if_neg hs]
        simp only [List.get?]
        apply ih k i el hget
        rcases hcond with hf | hle
        · exact Or.inl hf
        · right
          simp only [List.take_succ_cons, List.countP_cons, hs] at hle
          simp only [Bool.false_eq_true, if_false, Nat.add_zero] at hle
          omega

theorem copyAttrAux_unchanged (found : List Element) (sel : Element → Bool) (name : String) :
    ∀ (l : Doc) (k i : Nat) (el : Element),
      l.get? i = some el →
      (sel el = false ∨ found.length ≤ k + (l.take i).countP sel) →
      (copyAttrAux found sel name l k).get? i = some el := by
  intro l
  induction l with
  | nil => intro k i el hget _; simp at hget
  | cons hd rest ih =>
    intro k i el hget hcond
    unfold copyAttrAux
    cases i with
    | zero =>
      simp only [List.get?] at hget
      injection hget with hget
      subst hget
      by_cases hs : sel hd
      · rw [if_pos hs]
        rcases hcond with hf | hle
        · rw [hs] at hf; exact absurd hf (by simp)
        · simp only [List.take_zero, List.countP_nil, Nat.add_zero] at hle
          rw [dif_neg (Nat.not_lt_of_ge hle)]
          rfl
      · rw [if_neg hs]
        rfl
    | succ i =>
      simp only [List.get?] at hget
      by_cases hs : sel hd
      · rw [if_pos hs]
        simp only [List.get?]
        apply ih (k + 1) i el hget
        rcases hcond with hf | hle
        · exact Or.inl hf
        · right
          simp only [List.take_succ_cons, List.countP_cons, hs, if_pos] at hle
          omega
      · rw [if_neg hs]
        simp only [List.get?]
        apply ih k i el hget
        rcases hcond with hf | hle
        · exact Or.inl hf
        · right
          simp only [List.take_succ_cons, List.countP_cons, hs] at hle
          simp only [Bool.false_eq_true, if_false, Nat.add_zero] at hle
          omega

theorem copyTextAux_matched (found : List Element) (sel : Element → Bool) :
    ∀ (l : Doc) (k i : Nat) (el f : Element),
      l.get? i = some el →
      sel el = true →
      found.get? (k + (l.take i).countP sel) = some f →
      (copyTextAux found sel l k).get? i = some (setText el f.text) := by
  intro l
  induction l with
  | nil => intro k i el f hget _ _; simp at hget
  | cons hd rest ih =>
    intro k i el f hget hs hfound
    unfold copyTextAux
    cases i with
    | zero =>
      simp only [List.get?] at hget
      injection hget with hget
      subst hget
      rw [if_pos hs]
      simp only [List.take_zero, List.countP_nil, Nat.add_zero] at hfound
      have hk : k < found.length := by
        by_contra hc
        rw [List.get?_eq_none.mpr (Nat.le_of_not_lt hc)] at hfound
        exact absurd hfound (by simp)
      rw [dif_pos hk]
      rw [List.get?_eq_get hk] at hfound
      injection hfound with hfound
      rw [hfound]
      rfl
    | succ i =>
      simp only [List.get?] at hget
      by_cases hh : sel hd
      · rw [if_pos hh]
        simp only [List.get?]
        apply ih (k + 1) i el f hget hs
        simp only [List.take_succ_cons, List.countP_cons, hh, if_pos] at hfound
        have : k + 1 + (List.take i rest).countP sel = k + ((List.take i rest).countP sel + 1) := by omega
        rw [this]
        exact hfound
      · rw [if_neg hh]
        simp only [List.get?]
        apply ih k i el f hget hs
        simp only [List.take_succ_cons, List.countP_cons, hh] at hfound
        simp only [Bool.false_eq_true, if_false, Nat.add_zero] at hfound
        exact hfound

theorem copyAttrAux_matched (found : List Element) (sel : Element → Bool) (name : String) :
    ∀ (l : Doc) (k i : Nat) (el f : Element),
      l.get? i = some el →
      sel el = true →
      found.get? (k + (l.take i).countP sel) = some f →
      (copyAttrAux found sel name l k).get? i =
        some (setAttribute el name (jsString (getAttribute f name))) := by
  intro l
  induction l with
  | nil => intro k i el f hget _ _; simp at hget
  | cons hd rest ih =>
    intro k i el f hget hs hfound
    unfold copyAttrAux
    cases i with
    | zero =>
      simp only [List.get?] at hget
      injection hget with hget
      subst hget
      rw [if_pos hs]
      simp only [List.take_zero, List.countP_nil, Nat.add_zero] at hfound
      have hk : k < found.length := by
        by_contra hc
        rw [List.get?_eq_none.mpr (Nat.le_of_not_lt hc)] at hfound
        exact absurd hfound (by simp)
      rw [dif_pos hk]
      rw [List.get?_eq_get hk] at hfound
      injection hfound with hfound
      rw [hfound]
      rfl
    | succ i =>
      simp only [List.get?] at hget
      by_cases hh : sel hd
      · rw [if_pos hh]
        simp only [List.get?]
        apply ih (k + 1) i el f hget hs
        simp only [List.take_succ_cons, List.countP_cons, hh, if_pos] at hfound
        have : k + 1 + (List.take i rest).countP sel = k + ((List.take i rest).countP sel + 1) := by omega
        rw [this]
        exact hfound
      · rw [if_neg hh]
        simp only [List.get?]
        apply ih k i el f hget hs
        simp only [List.take_succ_cons, List.countP_cons, hh] at hfound
        simp only [Bool.false_eq_true, if_false, Nat.add_zero] at hfound
        exact hfound

theorem execQueueRun_invoked (q : List JsVal) :
    (execQueueRun q).1 = fnIds q := by
  induction q with
  | nil => rfl
  | cons v rest ih =>
    cases v with
    | fn id thr =>
      simp only [execQueueRun, fnIds, List.filterMap_cons]
      exact congrArg (List.cons id) ih
    | num n => simpa [execQueueRun, fnIds, List.filterMap_cons] using ih
    | str s => simpa [execQueueRun, fnIds, List.filterMap_cons] using ih
    | obj => simpa [execQueueRun, fnIds, List.filterMap_cons] using ih

theorem execQueueRun_append (a b : List JsVal) :
    execQueueRun (a ++ b) =
      ((execQueueRun a).1 ++ (execQueueRun b).1, (execQueueRun a).2 ++ (execQueueRun b).2) := by
  induction a with
  | nil => simp [execQueueRun]
  | cons v rest ih =>
    cases v with
    | fn id thr =>
      simp only [List.cons_append, execQueueRun, List.append_eq]
      rw [ih]
      cases thr <;> simp
    | num n => simpa [execQueueRun] using ih
    | str s => simpa [execQueueRun] using ih
    | obj => simpa [execQueueRun] using ih

theorem fnIds_filter_isFunction (l : List JsVal) :
    fnIds (l.filter isFunction) = fnIds l := by
  induction l with
  | nil => rfl
  | cons v rest ih =>
    cases v with
    | fn id thr => simp [fnIds, List.filter_cons, isFunction, List.filterMap_cons] at ih ⊢; exact ih
    | num n => simpa [fnIds, List.filter_cons, isFunction, List.filterMap_cons] using ih
    | str s => simpa [fnIds, List.filter_cons, isFunction, List.filterMap_cons] using ih
    | obj => simpa [fnIds, List.filter_cons, isFunction, List.filterMap_cons] using ih

theorem onload_foldl_queue (regs : List JsVal) :
    ∀ st : PJAXState, (List.foldl PJAX.onload st regs).queue = st.queue ++ regs.filter isFunction := by
  induction regs with
  | nil => intro st; simp
  | cons v rest ih =>
    intro st
    simp only [List.foldl_cons, List.filter_cons]
    rw [ih]
    by_cases h : isFunction v
    · simp [PJAX.onload, h]
    · simp [PJAX.onload, Bool.eq_false_iff.mpr h, h]

theorem windowLoadFire_no_invocations (st : PJAXState) :
    invocationsOf (windowLoadFire st) = [] := by
  unfold windowLoadFire
  by_cases h : st.windowOnloadSet
  · rw [if_pos h]; rfl
  · rw [if_neg h]; rfl

theorem runStartup_regs_then_setup (regs : List JsVal) :
    ∀ st : PJAXState,
      runStartup st (regs.map StartupOp.register ++ [StartupOp.callSetup]) =
        (List.foldl PJAX.onload st regs,
         (execQueueRun (List.foldl PJAX.onload st regs).queue).1) := by
  induction regs with
  | nil => intro st; simp [runStartup]
  | cons v rest ih =>
    intro st
    simp only [List.map_cons, List.cons_append, runStartup, List.foldl_cons]
    exact ih (PJAX.onload st v)

/-! Claim theorems. -/

/-- C1: the claim says every inline script of the fetched container is
re-created in the live document and evaluated exactly once, in document
order, and that in the spec's scenario window.__x becomes 1.  The code
queries response.querySelectorAll(container + " script") only after
replaceChild has adopted the container element out of the fetched document,
so the query is empty and nothing is evaluated: in the scenario the patch
succeeds, the live container text becomes B, the fetched document loses its
container, and the list of evaluated script texts is empty, even though the
fetched container did carry the inline script window.__x=1 before the swap
(second conjunct). -/
theorem c1_no_script_is_evaluated :
    patchDOM simpleMatch windowPjax.replace windowPjax.container scenarioLive scenarioResp =
      Except.ok ([⟨"div", [("class", "body")], "B", ["window.__x=1"]⟩], [], [])
    ∧ containerScripts (simpleMatch windowPjax.container) scenarioResp = ["window.__x=1"] :=
  ⟨rfl, rfl⟩

/-- C2: steps 1-2 of the patch pass never throw - the guarded copy loops
always return a value (first conjunct), and a live element whose selector
does not match it, or whose match index is beyond the fetched document's
match list, is returned unchanged by that entry's loop (second and third
conjuncts, for textContent entries and attribute entries); totality of the
whole fold is exactly the guarantee that the remaining replacement steps
still run. -/
theorem c2_missing_match_is_safe :
    (∀ (S : String → Element → Bool) (cfg : ReplaceConfig) (resp live : Doc),
        steps12E S cfg resp live = Except.ok (steps12 S cfg resp live))
    ∧ (∀ (found : List Element) (sel : Element → Bool) (l : Doc) (k i : Nat) (el : Element),
        l.get? i = some el →
        sel el = false ∨ found.length ≤ k + (l.take i).countP sel →
        (copyTextAux found sel l k).get? i = some el)
    ∧ (∀ (found : List Element) (sel : Element → Bool) (name : String) (l : Doc) (k i : Nat) (el : Element),
        l.get? i = some el →
        sel el = false ∨ found.length ≤ k + (l.take i).countP sel →
        (copyAttrAux found sel name l k).get? i = some el) :=
  ⟨steps12E_ok, copyTextAux_unchanged, copyAttrAux_unchanged⟩

/-- Witness for C2 at a concrete input: live has a title element, the
fetched document has no title match, and the element is returned unchanged. -/
theorem c2_missing_match_is_safe_witness :
    (copyTextAux [] (fun el => el.tag == "title") [⟨"title", [], "Old", []⟩] 0).get? 0 =
      some ⟨"title", [], "Old", []⟩ :=
  c2_missing_match_is_safe.2.1 [] (fun el => el.tag == "title") [⟨"title", [], "Old", []⟩]
    0 0 ⟨"title", [], "Old", []⟩ rfl (Or.inr (Nat.zero_le _))

/-- C3 counterexample: a live document with no container match.  The claim
says the swap is skipped and the patch pass does not fail; the code throws
a TypeError at the currentPage.parentNode access instead. -/
theorem c3_counterexample :
    patchDOM simpleMatch { textContent := [], «attribute» := [] } ".body"
      [] [⟨"div", [("class", "body")], "B", []⟩] =
      Except.error (JsError.typeError "Cannot read properties of null (reading parentNode)") :=
  rfl

/-- C3 (amended): when the container selector matches nothing in the live
document (after steps 1-2), the pass throws at the parentNode access; when
it matches in the live document but nothing in the fetched one, the pass
throws at the replaceChild call; in every other case - including more than
one match in either document - the swap is not skipped: the first live
match is replaced by the first fetched match, which is adopted out of the
fetched document. -/
theorem c3_swap_first_match_or_throw :
    ∀ (S : String → Element → Bool) (cfg : ReplaceConfig) (c : String) (live resp : Doc),
      (querySelector (S c) (steps12 S cfg resp live) = none →
        patchDOM S cfg c live resp =
          Except.error (JsError.typeError "Cannot read properties of null (reading parentNode)"))
      ∧ (∀ cur, querySelector (S c) (steps12 S cfg resp live) = some cur →
          querySelector (S c) resp = none →
          patchDOM S cfg c live resp =
            Except.error (JsError.typeError
              "Failed to execute replaceChild on Node: parameter 1 is not of type Node"))
      ∧ (∀ cur np, querySelector (S c) (steps12 S cfg resp live) = some cur →
          querySelector (S c) resp = some np →
          patchDOM S cfg c live resp =
            Except.ok (replaceFirst (S c) np (steps12 S cfg resp live),
              eraseFirst (S c) resp,
              containerScripts (S c) (eraseFirst (S c) resp))) := by
  intro S cfg c live resp
  refine ⟨?_, ?_, ?_⟩
  · intro h
    simp [patchDOM, steps12E_ok, h]
  · intro cur hcur hnew
    simp [patchDOM, steps12E_ok, hcur, hnew]
  · intro cur np hcur hnew
    simp [patchDOM, steps12E_ok, hcur, hnew]

/-- Witness for C3 at a concrete input: one container match on each side,
so the first (only) live match is structurally replaced. -/
theorem c3_swap_first_match_or_throw_witness :
    patchDOM simpleMatch { textContent := [], «attribute» := [] } ".body"
      [⟨"div", [("class", "body")], "A", []⟩] [⟨"div", [("class", "body")], "B", ["s"]⟩] =
      Except.ok ([⟨"div", [("class", "body")], "B", ["s"]⟩], [], []) := by
  have h := ((c3_swap_first_match_or_throw simpleMatch { textContent := [], «attribute» := [] }
      ".body" [⟨"div", [("class", "body")], "A", []⟩]
      [⟨"div", [("class", "body")], "B", ["s"]⟩]).2.2
    ⟨"div", [("class", "body")], "A", []⟩ ⟨"div", [("class", "body")], "B", ["s"]⟩ rfl rfl)
  exact h.trans rfl

/-- C4 counterexample: with config overlapCfg, the fetched document has a
"p" match at position 0 with text P, but after the whole pass the live
document's 0-th "p" match carries text X - the later entry ".x" matched the
same element and overwrote the value copied by entry "p"; so "after the
patch pass the i-th matching element's text equals the fetched element's
value" fails for entry "p". -/
theorem c4_counterexample :
    ((qsa (simpleMatch "p") (steps12 simpleMatch overlapCfg overlapResp overlapLive)).get? 0).map
        Element.text = some "X"
    ∧ ((qsa (simpleMatch "p") overlapResp).get? 0).map Element.text = some "P"
    ∧ ((qsa (simpleMatch "p") (steps12 simpleMatch overlapCfg overlapResp overlapLive)).get? 0).map
          Element.text ≠
        ((qsa (simpleMatch "p") overlapResp).get? 0).map Element.text :=
  ⟨rfl, rfl, by decide⟩

/-- C4 (amended): the positional copy holds entry by entry: immediately
after one entry's loop, the i-th live match carries the fetched element's
text (textContent entries) or its named attribute value, an absent fetched
attribute being stored as the DOMString "null" (attribute entries); a live
match with no fetched counterpart is left unchanged by that entry.  A later
entry whose selector matches the same element may overwrite the copied
value before the pass ends. -/
theorem c4_positional_copy_per_entry :
    (∀ (found : List Element) (sel : Element → Bool) (l : Doc) (k i : Nat) (el f : Element),
        l.get? i = some el → sel el = true →
        found.get? (k + (l.take i).countP sel) = some f →
        (copyTextAux found sel l k).get? i = some (setText el f.text))
    ∧ (∀ (found : List Element) (sel : Element → Bool) (name : String) (l : Doc) (k i : Nat)
          (el f : Element),
        l.get? i = some el → sel el = true →
        found.get? (k + (l.take i).countP sel) = some f →
        (copyAttrAux found sel name l k).get? i =
          some (setAttribute el name (jsString (getAttribute f name))))
    ∧ (∀ (found : List Element) (sel : Element → Bool) (l : Doc) (k i : Nat) (el : Element),
        l.get? i = some el →
        sel el = false ∨ found.length ≤ k + (l.take i).countP sel →
        (copyTextAux found sel l k).get? i = some el)
    ∧ (∀ (found : List Element) (sel : Element → Bool) (name : String) (l : Doc) (k i : Nat)
          (el : Element),
        l.get? i = some el →
        sel el = false ∨ found.length ≤ k + (l.take i).countP sel →
        (copyAttrAux found sel name l k).get? i = some el) :=
  ⟨copyTextAux_matched, copyAttrAux_matched, copyTextAux_unchanged, copyAttrAux_unchanged⟩

/-- Witness for C4 at the spec's title scenario: live title Old, fetched
title New; after the entry's loop the live title carries New. -/
theorem c4_positional_copy_per_entry_witness :
    (copyTextAux [⟨"title", [], "New", []⟩] (fun el => el.tag == "title")
        [⟨"title", [], "Old", []⟩] 0).get? 0 = some ⟨"title", [], "New", []⟩ := by
  have h := c4_positional_copy_per_entry.1 [⟨"title", [], "New", []⟩]
    (fun el => el.tag == "title") [⟨"title", [], "Old", []⟩] 0 0
    ⟨"title", [], "Old", []⟩ ⟨"title", [], "New", []⟩ rfl rfl rfl
  exact h.trans rfl

/-- C5: onload only ever appends (the old queue is a prefix of the new one,
first conjunct); after any sequence of registrations on the page's engine
the queue is exactly the function arguments in registration order,
duplicates kept (second conjunct); and a replay invokes exactly those
callbacks, in registration order, so the same callback registered twice is
invoked twice (third conjunct). -/
theorem c5_registration_order_kept :
    (∀ (st : PJAXState) (v : JsVal), st.queue <+: (PJAX.onload st v).queue)
    ∧ (∀ regs : List JsVal,
        (List.foldl PJAX.onload windowPjax regs).queue = regs.filter isFunction)
    ∧ (∀ regs : List JsVal,
        (execQueueRun (List.foldl PJAX.onload windowPjax regs).queue).1 = fnIds regs) := by
  refine ⟨?_, ?_, ?_⟩
  · intro st v
    unfold PJAX.onload
    by_cases h : isFunction v
    · simp [h]
    · simp [h]
  · intro regs
    rw [onload_foldl_queue]
    rfl
  · intro regs
    rw [onload_foldl_queue, execQueueRun_invoked]
    show fnIds ([] ++ regs.filter isFunction) = fnIds regs
    rw [List.nil_append, fnIds_filter_isFunction]

/-- C6: a throwing callback is invoked, its error is caught and logged, and
every function entry after it in the queue is still invoked in the same
replay pass: the invocation list of a queue with a throwing entry in the
middle is the function ids before it, then its id, then the function ids
after it, and the throwing id appears in the log. -/
theorem c6_throwing_callback_isolated :
    ∀ (q₁ q₂ : List JsVal) (id : Nat),
      (execQueueRun (q₁ ++ JsVal.fn id true :: q₂)).1 = fnIds q₁ ++ id :: fnIds q₂
      ∧ id ∈ (execQueueRun (q₁ ++ JsVal.fn id true :: q₂)).2 := by
  intro q₁ q₂ id
  constructor
  · rw [execQueueRun_append]
    show (execQueueRun q₁).1 ++ (execQueueRun (JsVal.fn id true :: q₂)).1 = _
    rw [execQueueRun_invoked, execQueueRun_invoked]
    rfl
  · rw [execQueueRun_append]
    show id ∈ (execQueueRun q₁).2 ++ (execQueueRun (JsVal.fn id true :: q₂)).2
    apply List.mem_append_right
    show id ∈ id :: (execQueueRun q₂).2
    exact List.mem_cons_self id _

/-- C7: the handler installed by setup for browser back/forward events
issues a request for the current window location and nothing else; applied
to any history stack, its actions leave the stack unchanged (no push, so no
duplicate back-stack entry), while a click handler's actions push exactly
the one entry for the followed link. -/
theorem c7_popstate_requests_without_push :
    ∀ (loc : String) (hist : List String),
      popstateHandler loc = [HAction.request loc]
      ∧ applyHistory hist (popstateHandler loc) = hist
      ∧ (∀ href, applyHistory hist (clickHandler href) = hist ++ [href]) :=
  fun _ _ => ⟨rfl, rfl, fun _ => rfl⟩

/-- C8 counterexample: the bootstrap line pjax.replace.textContent.push("h1")
runs after the constructor and changes the instance's ReplaceConfig, so the
page engine's config differs from the freshly constructed one. -/
theorem c8_counterexample :
    windowPjax.replace ≠ PJAX.new.replace
    ∧ windowPjax.replace.textContent = ["title", "h1"]
    ∧ PJAX.new.replace.textContent = ["title"] :=
  ⟨by decide, rfl, rfl⟩

/-- C8 (amended): the PJAX class itself never writes the replace config
after construction - onload and any startup run preserve it, and the patch
pass and execQueue only read it - but the page bootstrap appends the
selector "h1" to textContent right after constructing window.pjax; from
then on the config is fixed at ["title", "h1"] plus the five default
attribute pairs. -/
theorem c8_replace_fixed_after_bootstrap :
    (∀ (st : PJAXState) (v : JsVal), (PJAX.onload st v).replace = st.replace)
    ∧ (∀ (st : PJAXState) (ops : List StartupOp), (runStartup st ops).1.replace = st.replace)
    ∧ windowPjax.replace.textContent = ["title", "h1"]
    ∧ windowPjax.replace.«attribute» = PJAX.new.replace.«attribute» := by
  refine ⟨fun st v => rfl, ?_, rfl, rfl⟩
  intro st ops
  induction ops generalizing st with
  | nil => rfl
  | cons op rest ih =>
    cases op with
    | register v => exact (ih (PJAX.onload st v)).trans rfl
    | callSetup => exact ih st

/-- C9 counterexample: a startup script that calls setup() and only then
registers a callback.  Setup's immediate execQueue ran on an empty queue,
and the window load event's handler is the unbound execQueue, which throws
on window before invoking anything - so the registered callback is replayed
zero times at first page load, not exactly once. -/
theorem c9_counterexample :
    firstLoadInvocations [StartupOp.callSetup, StartupOp.register (JsVal.fn 0 false)] = []
    ∧ (runStartup windowPjax
        [StartupOp.callSetup, StartupOp.register (JsVal.fn 0 false)]).1.queue =
        [JsVal.fn 0 false] :=
  ⟨rfl, rfl⟩

/-- C9 (amended): provided every registration precedes the setup() call,
the queue is replayed exactly once at first page load - by setup's
immediate execQueue; the window load event itself contributes no
invocations, on any state, because the installed handler is the unbound
method and throws before running the queue (second conjunct) - and once
more after each successful patch pass, via the afterLoad hook (third
conjunct). -/
theorem c9_replay_once_per_load :
    (∀ regs : List JsVal,
        firstLoadInvocations (regs.map StartupOp.register ++ [StartupOp.callSetup]) = fnIds regs)
    ∧ (∀ st : PJAXState, invocationsOf (windowLoadFire st) = [])
    ∧ (∀ (S : String → Element → Bool) (st : PJAXState) (live resp l r : Doc)
          (sc : List String) (inv : List Nat),
        st.afterLoadSet = true →
        requestLoadHandler S st live resp = Except.ok (l, r, sc, inv) →
        inv = (execQueueRun st.queue).1) := by
  refine ⟨?_, windowLoadFire_no_invocations, ?_⟩
  · intro regs
    unfold firstLoadInvocations
    rw [runStartup_regs_then_setup]
    show (execQueueRun (List.foldl PJAX.onload windowPjax regs).queue).1 ++
        invocationsOf (windowLoadFire (List.foldl PJAX.onload windowPjax regs)) = fnIds regs
    rw [windowLoadFire_no_invocations, List.append_nil]
    rw [onload_foldl_queue, execQueueRun_invoked]
    show fnIds ([] ++ regs.filter isFunction) = fnIds regs
    rw [List.nil_append, fnIds_filter_isFunction]
  · intro S st live resp l r sc inv hset hok
    unfold requestLoadHandler at hok
    cases hpd : patchDOM S st.replace st.container live resp with
    | error e => rw [hpd] at hok; exact absurd hok (by simp)
    | ok t =>
      obtain ⟨a, b, c⟩ := t
      rw [hpd] at hok
      have h4 : afterPatchInvocations st = inv := by
        injection hok with hok
        injection hok with h1 hok
        injection hok with h2 hok
        injection hok with h3 h4
      rw [← h4]
      unfold afterPatchInvocations
      rw [if_pos hset]

/-- Witness for C9 at a concrete input: one callback registered (so the
afterLoad hook is set), a successful patch pass, and the hook replays
exactly that callback. -/
theorem c9_replay_once_per_load_witness :
    ([5] : List Nat) = (execQueueRun (PJAX.onload windowPjax (JsVal.fn 5 false)).queue).1 :=
  c9_replay_once_per_load.2.2 simpleMatch (PJAX.onload windowPjax (JsVal.fn 5 false))
    [⟨"div", [("class", "body")], "A", []⟩] [⟨"div", [("class", "body")], "C", []⟩]
    [⟨"div", [("class", "body")], "C", []⟩] [] [] [5] rfl rfl

/-- C10: passing a non-function to onload leaves the queue unchanged (the
typeof guard rejects it; onload itself cannot throw - it is total on any
argument), a replay after such a call invokes exactly what a replay before
it would, and a non-function entry sitting anywhere in a queue is skipped
by execQueue without error. -/
theorem c10_nonfunction_onload_ignored :
    ∀ (st : PJAXState) (v : JsVal), isFunction v = false →
      (PJAX.onload st v).queue = st.queue
      ∧ execQueueRun ((PJAX.onload st v).queue) = execQueueRun st.queue
      ∧ (∀ q₁ q₂ : List JsVal, execQueueRun (q₁ ++ v :: q₂) = execQueueRun (q₁ ++ q₂)) := by
  intro st v h
  have hq : (PJAX.onload st v).queue = st.queue := by
    simp [PJAX.onload, h]
  refine ⟨hq, by rw [hq], ?_⟩
  intro q₁ q₂
  have hv : execQueueRun (v :: q₂) = execQueueRun q₂ := by
    cases v with
    | fn id thr => simp [isFunction] at h
    | num n => rfl
    | str s => rfl
    | obj => rfl
  rw [execQueueRun_append, execQueueRun_append, hv]

/-- Witness for C10 at a concrete input: onload with the number 3 leaves
the page engine's queue unchanged. -/
theorem c10_nonfunction_onload_ignored_witness :
    (PJAX.onload windowPjax (JsVal.num 3)).queue = windowPjax.queue :=
  (c10_nonfunction_onload_ignored windowPjax (JsVal.num 3) rfl).1
